import Mathlib

/-!
The deck repository: header injection, aggregated errors, Kong client set-up, KongState
construction.

A shallow embedding of `cmd/utils.go` and `state/state.go`.

* Go strings are Lean `String`s; `strings.SplitN` is modelled for a one-character separator.
  The separator used, `:`, is a single byte that occurs in no multi-byte UTF-8 sequence, so
  splitting on characters and splitting on bytes agree.
* Go maps are reference objects: `http.Header` values live in a `Heap` and requests hold a
  reference to them, so that aliasing between the incoming and the outgoing request is visible.
* A nil pointer or nil interface value is `none`. The functions embedded return their Go
  `(pointer, error)` pair as two fields; the functions they call return an `Except`.
* Library functions that are not part of the repository (`x509`, `go-kong`, the wrapped
  transport) and the per-kind collection constructors are parameters of the model.
-/

namespace Deck

/-! ## Strings -/

/-- Decimal rendering of a Go `int`, as `strconv.Itoa` produces it. -/
def Itoa (i : Int) : String :=
  if i < 0 then "-" ++ Nat.repr i.natAbs else Nat.repr i.toNat

/-- Split a character sequence at the first occurrence of `sep`: the text before it and the
text after it, or `none` when `sep` does not occur. -/
def cutFirst (sep : Char) : List Char → Option (List Char × List Char)
  | [] => none
  | c :: cs =>
    if c = sep then some ([], cs)
    else match cutFirst sep cs with
      | none => none
      | some (a, b) => some (c :: a, b)

/-- Worker of `SplitN` on character sequences: at most `n` pieces, the last piece being the
unsplit remainder. -/
def SplitN.pieces (sep : Char) : Nat → List Char → List (List Char)
  | 0, _ => []
  | 1, s => [s]
  | n + 2, s =>
    match cutFirst sep s with
    | none => [s]
    | some (a, b) => a :: SplitN.pieces sep (n + 1) b

/-- Go `strings.SplitN(s, sep, n)` for a one-character separator and `n ≥ 0`. -/
def SplitN (s : String) (sep : Char) (n : Nat) : List String :=
  (SplitN.pieces sep n s.data).map String.mk

/-! ## errorArray -/

/-- A Go `error` interface value as `%v` sees it: `nil`, or an error with its `Error()` text. -/
abbrev error := Option String

/-- The text `%v` prints for an `error`: the `Error()` text, `<nil>` for a nil interface. An
error type with a `Format` method of its own is taken to print its `Error()` text under `%v`,
as the errors of `github.com/pkg/errors` do. -/
def verbV : error → String
  | none => "<nil>"
  | some msg => msg

structure errorArray where
  Errors : List error

/-- Method `Error` of `errorArray`: `"nil"` for an empty slice, otherwise the count line
followed by one `\t%v\n` line per element, appended in slice order. -/
def errorArray.Error (e : errorArray) : String :=
  if e.Errors.length = 0 then "nil"
  else
    e.Errors.foldl (fun res err => res ++ ("\t" ++ verbV err ++ "\n"))
      (Itoa e.Errors.length ++ " errors occured:\n")

/-! ## HTTP headers, requests and the header-injecting transport -/

/-- Go `http.Header`, a `map[string][]string`: finitely many keys, each bound once. Slices
are held by value, since no statement of the embedded code writes into a slice element. -/
abbrev Header := AList (fun _ : String => List String)

/-- Reference to a map object. -/
abbrev Ref := Nat

/-- The allocated map objects; a reference is an index into `maps`. -/
structure Heap where
  maps : List Header

/-- The map a (possibly nil) reference denotes; a nil map reads as empty. -/
def Heap.load (h : Heap) : Option Ref → Header
  | none => ∅
  | some r => h.maps.getD r ∅

/-- Go `make(http.Header, n)`: a fresh empty map and its reference. -/
def Heap.make (h : Heap) : Ref × Heap :=
  (h.maps.length, ⟨h.maps ++ [∅]⟩)

/-- Go `m[k] = v` on the map object behind `r`. -/
def Heap.store (h : Heap) (r : Ref) (k : String) (v : List String) : Heap :=
  ⟨h.maps.set r (AList.insert k v (h.load (some r)))⟩

/-- Go `http.Request`: the reference to its header map, and all its other fields. -/
structure Request (B : Type) where
  Header : Option Ref
  rest : B

/-- HeaderRoundTripper injects Headers into requests made via RT. -/
structure HeaderRoundTripper (RT : Type) where
  headers : List String
  rt : RT

/-- Body of the second loop of `RoundTrip` for one configured entry `s`, writing into the
map behind `r`: `split := strings.SplitN(s, ":", 2)`, and when `len(split) >= 2` the
assignment `Header[split[0]] = append([]string(nil), split[1])`. -/
def HeaderRoundTripper.setHeader (r : Ref) (heap : Heap) (s : String) : Heap :=
  match SplitN s ':' 2 with
  | k :: v :: _ => heap.store r k [v]
  | _ => heap

/-- The part of `RoundTrip` before the hand-over: the new request and the heap in which it is
handed to the wrapped transport. -/
def HeaderRoundTripper.newRequest {RT B : Type} (t : HeaderRoundTripper RT)
    (req : Request B) (heap : Heap) : Request B × Heap :=
  -- newRequest := new(http.Request); *newRequest = *req
  let newRequest : Request B := req
  -- newRequest.Header = make(http.Header, len(req.Header))
  let (r, heap) := heap.make
  let newRequest : Request B := { newRequest with Header := some r }
  -- for k, s := range req.Header { newRequest.Header[k] = append([]string(nil), s...) }
  let heap := (heap.load req.Header).entries.foldl (fun hp e => hp.store r e.1 e.2) heap
  -- for _, s := range t.headers { ... }
  let heap := t.headers.foldl (HeaderRoundTripper.setHeader r) heap
  (newRequest, heap)

/-- RoundTrip satisfies the RoundTripper interface. `roundTrip` is the `RoundTrip` method of
the wrapped transport, which receives the new request and the heap. -/
def HeaderRoundTripper.RoundTrip {RT B ρ : Type} (roundTrip : RT → Request B → Heap → ρ)
    (t : HeaderRoundTripper RT) (req : Request B) (heap : Heap) : ρ :=
  let (newRequest, heap) := t.newRequest req heap
  roundTrip t.rt newRequest heap

/-- The header map of the request handed to the wrapped transport. -/
def HeaderRoundTripper.outgoing {RT B : Type} (t : HeaderRoundTripper RT)
    (req : Request B) (heap : Heap) : Header :=
  (t.newRequest req heap).2.load (t.newRequest req heap).1.Header

/-! ## GetKongClient -/

structure kongClientConfig where
  Address : String
  Headers : List String
  TLSSkipVerify : Bool
  TLSServerName : String
  TLSCACert : String
  Debug : Bool

/-- The fields of Go `tls.Config` that `GetKongClient` touches; the defaults are the zero
value of `var tlsConfig tls.Config`. -/
structure TLSConfig (Pool : Type) where
  InsecureSkipVerify : Bool := false
  ServerName : String := ""
  RootCAs : Option Pool := none

/-- The `crypto/x509` functions used: `NewCertPool()` and `AppendCertsFromPEM`, which
returns the extended pool and whether any certificate was parsed. -/
structure X509 (Pool : Type) where
  NewCertPool : Pool
  AppendCertsFromPEM : Pool → String → Pool × Bool

/-- The process-wide `http.DefaultTransport` object: its TLS configuration and its other
fields. -/
structure Transport (Pool T : Type) where
  TLSClientConfig : Option (TLSConfig Pool)
  rest : T

/-- The pointer `http.DefaultTransport.(*http.Transport)`. -/
inductive TransportRef where
  | DefaultTransport
deriving DecidableEq, Repr

/-- The value of `c.Transport`. -/
inductive RoundTripper where
  | transport (p : TransportRef)
  | header (t : HeaderRoundTripper TransportRef)

/-- Go `http.Client`; only `Transport` is set. -/
structure Client where
  Transport : RoundTripper

/-- The `go-kong` functions used, for a client type `K` and a library error type `E`. -/
structure Kong (K E : Type) where
  NewClient : String → Client → Except E K
  SetDebugMode : K → Bool → K
  SetLoggerStderr : K → K

/-- Errors built with `github.com/pkg/errors`. -/
inductive Err (E : Type) where
  | New (msg : String)
  | Wrap (cause : E) (msg : String)

/-- The `Error()` text of an `Err`, given the text of the wrapped cause. -/
def Err.Error {E : Type} (causeText : E → String) : Err E → String
  | .New msg => msg
  | .Wrap cause msg => msg ++ ": " ++ causeText cause

/-- What `GetKongClient` returns, together with `http.DefaultTransport` after the call. -/
structure GetKongClientResult (K E Pool T : Type) where
  client : Option K
  err : Option (Err E)
  DefaultTransport : Transport Pool T

/-- Lines 100-118 of `GetKongClient`: install `tlsConfig` on `http.DefaultTransport`, build
the HTTP client and the Kong client. -/
def GetKongClient.finish {K E Pool T : Type} (kong : Kong K E)
    (DefaultTransport : Transport Pool T) (opt : kongClientConfig) (tlsConfig : TLSConfig Pool) :
    GetKongClientResult K E Pool T :=
  let defaultTransport := TransportRef.DefaultTransport
  -- defaultTransport.TLSClientConfig = &tlsConfig
  let DefaultTransport := { DefaultTransport with TLSClientConfig := some tlsConfig }
  let c : Client := ⟨.transport defaultTransport⟩
  let c : Client :=
    if opt.Headers.length > 0 then ⟨.header { headers := opt.Headers, rt := defaultTransport }⟩
    else c
  match kong.NewClient opt.Address c with
  | .error err =>
    ⟨none, some (.Wrap err "creating client for Kong's Admin API"), DefaultTransport⟩
  | .ok kongClient =>
    let kongClient :=
      if opt.Debug then kong.SetLoggerStderr (kong.SetDebugMode kongClient true)
      else kongClient
    ⟨some kongClient, none, DefaultTransport⟩

/-- GetKongClient returns a Kong client. `DefaultTransport` is the object behind
`http.DefaultTransport`, taken to be a `*http.Transport` as the type assertion requires. -/
def GetKongClient {K E Pool T : Type} (x509 : X509 Pool) (kong : Kong K E)
    (DefaultTransport : Transport Pool T) (opt : kongClientConfig) :
    GetKongClientResult K E Pool T :=
  let tlsConfig : TLSConfig Pool := {}
  let tlsConfig :=
    if opt.TLSSkipVerify then { tlsConfig with InsecureSkipVerify := true } else tlsConfig
  let tlsConfig :=
    if opt.TLSServerName ≠ "" then { tlsConfig with ServerName := opt.TLSServerName }
    else tlsConfig
  if opt.TLSCACert ≠ "" then
    let certPool := x509.NewCertPool
    let (certPool, ok) := x509.AppendCertsFromPEM certPool opt.TLSCACert
    if !ok then ⟨none, some (.New "failed to load TLSCACert"), DefaultTransport⟩
    else GetKongClient.finish kong DefaultTransport opt { tlsConfig with RootCAs := some certPool }
  else GetKongClient.finish kong DefaultTransport opt tlsConfig

/-! ## KongState -/

/-- The eleven entity kinds, named after the fields of `KongState`. -/
inductive Kind where
  | Services | Routes | Upstreams | Targets | Certificates | Plugins | Consumers
  | KeyAuths | HMACAuths | JWTAuths | BasicAuths
deriving DecidableEq, Repr

/-- KongState is an in-memory database representation of Kong's configuration. `Coll k` is
the collection type of kind `k`; every field is a pointer. -/
structure KongState (Coll : Kind → Type) where
  Services : Option (Coll .Services)
  Routes : Option (Coll .Routes)
  Upstreams : Option (Coll .Upstreams)
  Targets : Option (Coll .Targets)
  Certificates : Option (Coll .Certificates)
  Plugins : Option (Coll .Plugins)
  Consumers : Option (Coll .Consumers)
  KeyAuths : Option (Coll .KeyAuths)
  HMACAuths : Option (Coll .HMACAuths)
  JWTAuths : Option (Coll .JWTAuths)
  BasicAuths : Option (Coll .BasicAuths)

/-- The eleven per-kind collection constructors, which are not part of the embedded files.
They take no argument, so each is given by its result: a non-nil error, or, with a nil error,
the pointer to the new collection. -/
structure Constructors (Coll : Kind → Type) (E : Type) where
  NewServicesCollection : Except E (Coll .Services)
  NewRoutesCollection : Except E (Coll .Routes)
  NewUpstreamsCollection : Except E (Coll .Upstreams)
  NewTargetsCollection : Except E (Coll .Targets)
  NewCertificatesCollection : Except E (Coll .Certificates)
  NewPluginsCollection : Except E (Coll .Plugins)
  NewConsumersCollection : Except E (Coll .Consumers)
  NewKeyAuthsCollection : Except E (Coll .KeyAuths)
  NewHMACAuthsCollection : Except E (Coll .HMACAuths)
  NewJWTAuthsCollection : Except E (Coll .JWTAuths)
  NewBasicAuthsCollection : Except E (Coll .BasicAuths)

/-- The constructor of kind `k`. -/
def Constructors.new {Coll : Kind → Type} {E : Type} (c : Constructors Coll E) :
    (k : Kind) → Except E (Coll k)
  | .Services => c.NewServicesCollection
  | .Routes => c.NewRoutesCollection
  | .Upstreams => c.NewUpstreamsCollection
  | .Targets => c.NewTargetsCollection
  | .Certificates => c.NewCertificatesCollection
  | .Plugins => c.NewPluginsCollection
  | .Consumers => c.NewConsumersCollection
  | .KeyAuths => c.NewKeyAuthsCollection
  | .HMACAuths => c.NewHMACAuthsCollection
  | .JWTAuths => c.NewJWTAuthsCollection
  | .BasicAuths => c.NewBasicAuthsCollection

/-- The field of kind `k` of a `KongState`. -/
def KongState.field {Coll : Kind → Type} (s : KongState Coll) : (k : Kind) → Option (Coll k)
  | .Services => s.Services
  | .Routes => s.Routes
  | .Upstreams => s.Upstreams
  | .Targets => s.Targets
  | .Certificates => s.Certificates
  | .Plugins => s.Plugins
  | .Consumers => s.Consumers
  | .KeyAuths => s.KeyAuths
  | .HMACAuths => s.HMACAuths
  | .JWTAuths => s.JWTAuths
  | .BasicAuths => s.BasicAuths

/-- The order in which the body of `NewKongState` calls the constructors. -/
def callSequence : List Kind :=
  [.Services, .Routes, .Upstreams, .Targets, .Certificates, .Plugins, .Consumers,
    .KeyAuths, .HMACAuths, .JWTAuths, .BasicAuths]

/-- What `NewKongState` returns, with the constructors it called, in call order. -/
structure NewKongStateResult (Coll : Kind → Type) (E : Type) where
  state : Option (KongState Coll)
  err : Option E
  calls : List Kind

/-- NewKongState creates a new in-memory KongState. -/
def NewKongState {Coll : Kind → Type} {E : Type} (c : Constructors Coll E) :
    NewKongStateResult Coll E :=
  match c.NewServicesCollection with
  | .error err => ⟨none, some err, [.Services]⟩
  | .ok services =>
  match c.NewRoutesCollection with
  | .error err => ⟨none, some err, [.Services, .Routes]⟩
  | .ok routes =>
  match c.NewUpstreamsCollection with
  | .error err => ⟨none, some err, [.Services, .Routes, .Upstreams]⟩
  | .ok upstreams =>
  match c.NewTargetsCollection with
  | .error err => ⟨none, some err, [.Services, .Routes, .Upstreams, .Targets]⟩
  | .ok targets =>
  match c.NewCertificatesCollection with
  | .error err => ⟨none, some err, [.Services, .Routes, .Upstreams, .Targets, .Certificates]⟩
  | .ok certificates =>
  match c.NewPluginsCollection with
  | .error err => ⟨none, some err,
      [.Services, .Routes, .Upstreams, .Targets, .Certificates, .Plugins]⟩
  | .ok plugins =>
  match c.NewConsumersCollection with
  | .error err => ⟨none, some err,
      [.Services, .Routes, .Upstreams, .Targets, .Certificates, .Plugins, .Consumers]⟩
  | .ok consumers =>
  match c.NewKeyAuthsCollection with
  | .error err => ⟨none, some err,
      [.Services, .Routes, .Upstreams, .Targets, .Certificates, .Plugins, .Consumers, .KeyAuths]⟩
  | .ok keyAuths =>
  match c.NewHMACAuthsCollection with
  | .error err => ⟨none, some err,
      [.Services, .Routes, .Upstreams, .Targets, .Certificates, .Plugins, .Consumers, .KeyAuths,
        .HMACAuths]⟩
  | .ok hmacAuths =>
  match c.NewJWTAuthsCollection with
  | .error err => ⟨none, some err,
      [.Services, .Routes, .Upstreams, .Targets, .Certificates, .Plugins, .Consumers, .KeyAuths,
        .HMACAuths, .JWTAuths]⟩
  | .ok jwtAuths =>
  match c.NewBasicAuthsCollection with
  | .error err => ⟨none, some err,
      [.Services, .Routes, .Upstreams, .Targets, .Certificates, .Plugins, .Consumers, .KeyAuths,
        .HMACAuths, .JWTAuths, .BasicAuths]⟩
  | .ok basicAuths =>
    ⟨some
      { Services := some services
        Routes := some routes
        Upstreams := some upstreams
        Targets := some targets
        Certificates := some certificates
        Plugins := some plugins
        Consumers := some consumers
        KeyAuths := some keyAuths
        HMACAuths := some hmacAuths
        JWTAuths := some jwtAuths
        BasicAuths := some basicAuths },
      none,
      [.Services, .Routes, .Upstreams, .Targets, .Certificates, .Plugins, .Consumers, .KeyAuths,
        .HMACAuths, .JWTAuths, .BasicAuths]⟩

/-- The map `m` after the first loop of `RoundTrip` has copied `entries` into it. -/
def Header.copyInto (entries : List (Sigma fun _ : String => List String)) (m : Header) :
    Header :=
  entries.foldl (fun m e => AList.insert e.1 e.2 m) m

/-- The map `m` after one step of the second loop of `RoundTrip`, for the entry `s`. -/
def Header.setEntry (m : Header) (s : String) : Header :=
  match SplitN s ':' 2 with
  | k :: v :: _ => AList.insert k [v] m
  | _ => m

/-- The outcome of calling the constructors of `ks` one after the other until one returns an
error: that error, if any, and the constructors called, appended to `called`. -/
def firstFailure {Coll : Kind → Type} {E : Type} (c : Constructors Coll E) :
    List Kind → List Kind → Option E × List Kind
  | [], called => (none, called)
  | k :: ks, called =>
    match c.new k with
    | .error err => (some err, called ++ [k])
    | .ok _ => firstFailure c ks (called ++ [k])

/-- Modelled from the spec: the "must exist before" edges of the dependency graph over entity
kinds (section 4.4): `dependsOn a b` when kind `a` depends on kind `b`. -/
def dependsOn : Kind → Kind → Bool
  | .Routes, .Services => true
  | .Plugins, .Services => true
  | .Plugins, .Routes => true
  | .Plugins, .Consumers => true
  | .Targets, .Upstreams => true
  | .KeyAuths, .Consumers => true
  | .HMACAuths, .Consumers => true
  | .JWTAuths, .Consumers => true
  | .BasicAuths, .Consumers => true
  | _, _ => false

/-- In the call list `calls`, the constructor of `a` is called, and earlier than that of `b`. -/
abbrev calledBefore (calls : List Kind) (a b : Kind) : Prop :=
  a ∈ calls ∧ calls.indexOf a < calls.indexOf b

/-- Constructors that all succeed, each returning the unit collection. -/
def unitConstructors : Constructors (fun _ => Unit) String :=
  ⟨.ok (), .ok (), .ok (), .ok (), .ok (), .ok (), .ok (), .ok (), .ok (), .ok (), .ok ()⟩

/-- A heap with one map, binding `X` to the single value `a`. -/
def demoHeap : Heap := ⟨[AList.insert "X" ["a"] ∅]⟩

/-- A request whose header map is the map of `demoHeap`. -/
def demoRequest : Request Unit := ⟨some 0, ()⟩

/-- A wrapped transport whose `RoundTrip` returns the request and the heap it receives. -/
def recordTransport (_ : Unit) (r : Request Unit) (h : Heap) : Request Unit × Heap :=
  (r, h)

/-- An `x509` stand-in whose pools are the PEM texts added so far; a text counts as holding a
certificate when it is not `"garbage"`. -/
def demoX509 : X509 (List String) :=
  ⟨[], fun pool pem => if pem = "garbage" then (pool, false) else (pool ++ [pem], true)⟩

/-- A `go-kong` stand-in: the client records its address and its debug flag; an empty address
is refused. -/
def demoKong : Kong (String × Bool) String :=
  ⟨fun addr _ => if addr = "" then .error "empty address" else .ok (addr, false),
    fun k b => (k.1, b), fun k => k⟩

/-- A default transport without TLS configuration. -/
def demoTransport : Transport (List String) Unit := ⟨none, ()⟩

/-- Options with skip-verify, a server name, a usable CA text and one header. -/
def demoConfig : kongClientConfig :=
  ⟨"http://kong:8001", ["X:a"], true, "kong.example", "PEM", false⟩

/-- Options whose CA text holds no certificate. -/
def demoBadCAConfig : kongClientConfig :=
  ⟨"http://kong:8001", [], true, "kong.example", "garbage", true⟩

/-- Constructors of which the third in call order fails, and a later one as well. -/
def failingConstructors : Constructors (fun _ => Unit) String :=
  ⟨.ok (), .ok (), .error "boom", .ok (), .ok (), .error "later", .ok (), .ok (), .ok (),
    .ok (), .ok ()⟩

/-! ## Lemmas on strings -/

theorem foldl_append_eq (l : List String) (init : String) :
    l.foldl (fun r s => r ++ s) init = init ++ String.join l := by
  induction l generalizing init with
  | nil => simp [String.join]
  | cons a l ih =>
    have h := ih ("" ++ a)
    simp only [String.join, List.foldl_cons] at h ⊢
    rw [ih, h, String.append_assoc]
    simp [String.join]

theorem join_cons (a : String) (l : List String) :
    String.join (a :: l) = a ++ String.join l := by
  have h := foldl_append_eq l ("" ++ a)
  simp only [String.join, List.foldl_cons] at h ⊢
  rw [h]
  simp [String.join]

theorem foldl_lines (f : error → String) (l : List error) (init : String) :
    l.foldl (fun res err => res ++ f err) init = init ++ String.join (l.map f) := by
  induction l generalizing init with
  | nil => simp [String.join]
  | cons a l ih =>
    simp only [List.foldl_cons, List.map_cons, ih, join_cons, String.append_assoc]

theorem Itoa_natCast (n : Nat) : Itoa (n : Int) = Nat.repr n := by
  simp [Itoa]

theorem cutFirst_none {sep : Char} {s : List Char} :
    cutFirst sep s = none ↔ sep ∉ s := by
  induction s with
  | nil => simp [cutFirst]
  | cons c cs ih =>
    by_cases h : c = sep
    · simp [cutFirst, h]
    · have h2 : ¬ sep = c := fun e => h e.symm
      cases hc : cutFirst sep cs with
      | none => simp [cutFirst, h, hc, h2, ih.mp hc]
      | some p =>
        have : ¬ sep ∉ cs := fun hn => by simp [ih.mpr hn] at hc
        simp [cutFirst, h, hc, h2]
        simpa using this

theorem cutFirst_some {sep : Char} {s a b : List Char} :
    cutFirst sep s = some (a, b) ↔ s = a ++ sep :: b ∧ sep ∉ a := by
  induction s generalizing a b with
  | nil => simp [cutFirst]
  | cons c cs ih =>
    by_cases h : c = sep
    · subst h
      simp only [cutFirst, if_true, Option.some.injEq, Prod.mk.injEq]
      constructor
      · rintro ⟨rfl, rfl⟩; simp
      · rintro ⟨h1, h2⟩
        cases a with
        | nil => simpa using h1
        | cons x xs =>
          simp at h1 h2
          exact absurd h1.1.symm (by tauto)
    · cases hc : cutFirst sep cs with
      | none =>
        simp only [cutFirst, h, if_false, hc]
        constructor
        · intro h0; cases h0
        · rintro ⟨h1, h2⟩
          cases a with
          | nil => simp at h1; exact absurd h1.1 h
          | cons x xs =>
            simp at h1 h2
            have := cutFirst_none.mp hc
            rw [h1.2] at this
            simp at this
      | some p =>
        obtain ⟨a', b'⟩ := p
        have ih' := ih.mp hc
        simp only [cutFirst, h, if_false, hc, Option.some.injEq, Prod.mk.injEq]
        constructor
        · rintro ⟨rfl, rfl⟩
          refine ⟨by simp [ih'.1], ?_⟩
          simp only [List.mem_cons, not_or]
          exact ⟨fun e => h e.symm, ih'.2⟩
        · rintro ⟨h1, h2⟩
          cases a with
          | nil => simp at h1; exact absurd h1.1 h
          | cons x xs =>
            simp at h1 h2
            have := (ih (a := xs) (b := b)).mpr ⟨h1.2, h2.2⟩
            rw [hc] at this
            simp at this
            exact ⟨by rw [h1.1, this.1], this.2⟩

theorem SplitN_two_of_not_mem {sep : Char} {s : String} (h : sep ∉ s.data) :
    SplitN s sep 2 = [s] := by
  simp [SplitN, SplitN.pieces, cutFirst_none.mpr h]

theorem SplitN_two_of_append {sep : Char} {a b : String} (h : sep ∉ a.data) :
    SplitN (a ++ String.singleton sep ++ b) sep 2 = [a, b] := by
  have hc : cutFirst sep (a.data ++ sep :: b.data) = some (a.data, b.data) :=
    cutFirst_some.mpr ⟨rfl, h⟩
  simp [SplitN, SplitN.pieces, String.data_append, String.singleton, hc]

theorem SplitN_two_cases (sep : Char) (s : String) :
    (sep ∉ s.data ∧ SplitN s sep 2 = [s]) ∨
    ∃ a b : String, sep ∉ a.data ∧ s = a ++ String.singleton sep ++ b ∧
      SplitN s sep 2 = [a, b] := by
  cases hc : cutFirst sep s.data with
  | none =>
    exact Or.inl ⟨cutFirst_none.mp hc, SplitN_two_of_not_mem (cutFirst_none.mp hc)⟩
  | some p =>
    obtain ⟨a, b⟩ := p
    obtain ⟨h1, h2⟩ := cutFirst_some.mp hc
    refine Or.inr ⟨⟨a⟩, ⟨b⟩, h2, ?_, ?_⟩
    · apply String.ext
      simp [String.data_append, String.singleton, h1]
    · simp [SplitN, SplitN.pieces, hc]

/-! ## Lemmas on the heap and on header maps -/

theorem Heap.store_last (maps : List Header) (m : Header) (k : String) (v : List String) :
    Heap.store ⟨maps ++ [m]⟩ maps.length k v = ⟨maps ++ [AList.insert k v m]⟩ := by
  simp [Heap.store, Heap.load]

theorem Heap.load_make (heap : Heap) (r : Option Ref) :
    heap.make.2.load r = heap.load r := by
  cases r with
  | none => rfl
  | some r =>
    simp only [Heap.make, Heap.load, List.getD_eq_getElem?_getD]
    rcases Nat.lt_trichotomy r heap.maps.length with h | h | h
    · simp [List.getElem?_append_left h]
    · subst h; simp
    · rw [List.getElem?_eq_none (by simp; omega), List.getElem?_eq_none (by omega)]

theorem foldl_store_copy (maps : List Header) (entries : List (Sigma fun _ : String => List String))
    (m : Header) :
    entries.foldl (fun hp e => Heap.store hp maps.length e.1 e.2) ⟨maps ++ [m]⟩ =
      ⟨maps ++ [Header.copyInto entries m]⟩ := by
  induction entries generalizing m with
  | nil => rfl
  | cons e es ih => simp only [List.foldl_cons, Heap.store_last, ih, Header.copyInto]

theorem setHeader_last (maps : List Header) (m : Header) (s : String) :
    HeaderRoundTripper.setHeader maps.length ⟨maps ++ [m]⟩ s = ⟨maps ++ [m.setEntry s]⟩ := by
  unfold HeaderRoundTripper.setHeader Header.setEntry
  split
  · rw [Heap.store_last]
  · rfl

theorem foldl_setHeader (maps : List Header) (hs : List String) (m : Header) :
    hs.foldl (HeaderRoundTripper.setHeader maps.length) ⟨maps ++ [m]⟩ =
      ⟨maps ++ [hs.foldl Header.setEntry m]⟩ := by
  induction hs generalizing m with
  | nil => rfl
  | cons e es ih => simp only [List.foldl_cons, setHeader_last, ih]

theorem newRequest_eq {RT B : Type} (t : HeaderRoundTripper RT) (req : Request B) (heap : Heap) :
    t.newRequest req heap =
      ({ req with Header := some heap.maps.length },
        ⟨heap.maps ++ [t.headers.foldl Header.setEntry
          (Header.copyInto (heap.load req.Header).entries ∅)]⟩) := by
  have h := Heap.load_make heap req.Header
  simp only [HeaderRoundTripper.newRequest, Heap.make] at h ⊢
  rw [h, foldl_store_copy, foldl_setHeader]

theorem outgoing_eq {RT B : Type} (t : HeaderRoundTripper RT) (req : Request B) (heap : Heap) :
    t.outgoing req heap =
      t.headers.foldl Header.setEntry (Header.copyInto (heap.load req.Header).entries ∅) := by
  simp [HeaderRoundTripper.outgoing, newRequest_eq, Heap.load]

theorem lookup_copyInto (k : String) (entries : List (Sigma fun _ : String => List String))
    (hnd : entries.NodupKeys) (m : Header) :
    AList.lookup k (Header.copyInto entries m) =
      (List.dlookup k entries).orElse (fun _ => AList.lookup k m) := by
  induction entries generalizing m with
  | nil => simp [Header.copyInto]
  | cons e es ih =>
    obtain ⟨k', v'⟩ := e
    have hnd' := List.nodupKeys_cons.mp hnd
    have ih' := ih hnd'.2 (AList.insert k' v' m)
    simp only [Header.copyInto, List.foldl_cons] at ih' ⊢
    rw [ih']
    by_cases hk : k = k'
    · subst hk
      have : List.dlookup k es = none := List.dlookup_eq_none.mpr hnd'.1
      simp [this, AList.lookup_insert]
    · have hk' : k' ≠ k := fun e => hk e.symm
      rw [List.dlookup_cons_ne es (⟨k', v'⟩ : Sigma fun _ : String => List String) hk,
        AList.lookup_insert_ne hk]

theorem lookup_copy (k : String) (h : Header) :
    AList.lookup k (Header.copyInto h.entries ∅) = AList.lookup k h := by
  rw [lookup_copyInto k h.entries h.nodupKeys]
  cases hl : List.dlookup k h.entries <;> simp [AList.lookup, hl]

theorem setEntry_of_not_mem (m : Header) {s : String} (h : ':' ∉ s.data) :
    m.setEntry s = m := by
  simp [Header.setEntry, SplitN_two_of_not_mem h]

theorem setEntry_of_eq (m : Header) {s k v : String} (h : SplitN s ':' 2 = [k, v]) :
    m.setEntry s = AList.insert k [v] m := by
  simp [Header.setEntry, h]

theorem lookup_setEntry_of_ne (m : Header) {s k : String}
    (h : ∀ v, SplitN s ':' 2 ≠ [k, v]) :
    AList.lookup k (m.setEntry s) = AList.lookup k m := by
  rcases SplitN_two_cases ':' s with ⟨hs, _⟩ | ⟨a, b, _, _, hab⟩
  · rw [setEntry_of_not_mem m hs]
  · rw [setEntry_of_eq m hab]
    have : k ≠ a := by
      rintro rfl
      exact h b hab
    exact AList.lookup_insert_ne this

theorem lookup_foldl_setEntry_of_ne (hs : List String) (m : Header) {k : String}
    (h : ∀ e ∈ hs, ∀ v, SplitN e ':' 2 ≠ [k, v]) :
    AList.lookup k (hs.foldl Header.setEntry m) = AList.lookup k m := by
  induction hs generalizing m with
  | nil => rfl
  | cons e es ih =>
    rw [List.foldl_cons, ih _ (fun e' he' => h e' (List.mem_cons_of_mem _ he')),
      lookup_setEntry_of_ne m (h e (List.mem_cons_self _ _))]

theorem lookup_foldl_setEntry_last (pre post : List String) (m : Header) {e k v : String}
    (he : SplitN e ':' 2 = [k, v]) (hpost : ∀ e' ∈ post, ∀ v', SplitN e' ':' 2 ≠ [k, v']) :
    AList.lookup k ((pre ++ e :: post).foldl Header.setEntry m) = some [v] := by
  rw [List.foldl_append, List.foldl_cons, lookup_foldl_setEntry_of_ne post _ hpost,
    setEntry_of_eq _ he, AList.lookup_insert]

theorem foldl_setEntry_skip (pre post : List String) (m : Header) {e : String}
    (he : ':' ∉ e.data) :
    (pre ++ e :: post).foldl Header.setEntry m = (pre ++ post).foldl Header.setEntry m := by
  rw [List.foldl_append, List.foldl_cons, setEntry_of_not_mem _ he, List.foldl_append]

theorem mem_setEntry {m : Header} {s k : String} (h : k ∈ m.setEntry s) :
    k ∈ m ∨ ∃ v, SplitN s ':' 2 = [k, v] := by
  rcases SplitN_two_cases ':' s with ⟨hs, _⟩ | ⟨a, b, _, _, hab⟩
  · rw [setEntry_of_not_mem m hs] at h
    exact Or.inl h
  · rw [setEntry_of_eq m hab, AList.mem_insert] at h
    rcases h with rfl | h
    · exact Or.inr ⟨b, hab⟩
    · exact Or.inl h

theorem mem_foldl_setEntry (hs : List String) (m : Header) {k : String}
    (h : k ∈ hs.foldl Header.setEntry m) :
    k ∈ m ∨ ∃ e ∈ hs, ∃ v, SplitN e ':' 2 = [k, v] := by
  induction hs generalizing m with
  | nil => exact Or.inl h
  | cons e es ih =>
    rcases ih _ h with h1 | ⟨e', he', v, hv⟩
    · rcases mem_setEntry h1 with h2 | ⟨v, hv⟩
      · exact Or.inl h2
      · exact Or.inr ⟨e, List.mem_cons_self _ _, v, hv⟩
    · exact Or.inr ⟨e', List.mem_cons_of_mem _ he', v, hv⟩

theorem mem_copy {k : String} {h : Header} :
    k ∈ Header.copyInto h.entries ∅ ↔ k ∈ h := by
  rw [← AList.lookup_isSome, ← AList.lookup_isSome, lookup_copy]

/-! ## Lemmas on NewKongState -/

theorem NewKongState_firstFailure {Coll : Kind → Type} {E : Type} (c : Constructors Coll E) :
    ((NewKongState c).err, (NewKongState c).calls) = firstFailure c callSequence [] := by
  obtain ⟨a1, a2, a3, a4, a5, a6, a7, a8, a9, a10, a11⟩ := c
  simp only [NewKongState, callSequence, firstFailure, Constructors.new]
  cases a1 <;> [rfl; skip]
  cases a2 <;> [rfl; skip]
  cases a3 <;> [rfl; skip]
  cases a4 <;> [rfl; skip]
  cases a5 <;> [rfl; skip]
  cases a6 <;> [rfl; skip]
  cases a7 <;> [rfl; skip]
  cases a8 <;> [rfl; skip]
  cases a9 <;> [rfl; skip]
  cases a10 <;> [rfl; skip]
  cases a11 <;> rfl

theorem NewKongState_state_iff {Coll : Kind → Type} {E : Type} (c : Constructors Coll E) :
    (NewKongState c).state = none ↔ (NewKongState c).err ≠ none := by
  obtain ⟨a1, a2, a3, a4, a5, a6, a7, a8, a9, a10, a11⟩ := c
  simp only [NewKongState]
  cases a1 <;> [simp; skip]
  cases a2 <;> [simp; skip]
  cases a3 <;> [simp; skip]
  cases a4 <;> [simp; skip]
  cases a5 <;> [simp; skip]
  cases a6 <;> [simp; skip]
  cases a7 <;> [simp; skip]
  cases a8 <;> [simp; skip]
  cases a9 <;> [simp; skip]
  cases a10 <;> [simp; skip]
  cases a11 <;> simp

theorem firstFailure_split {Coll : Kind → Type} {E : Type} (c : Constructors Coll E)
    (pre post : List Kind) (k : Kind) (e : E) (called : List Kind)
    (hpre : ∀ j ∈ pre, ∃ coll, c.new j = .ok coll) (hk : c.new k = .error e) :
    firstFailure c (pre ++ k :: post) called = (some e, called ++ pre ++ [k]) := by
  induction pre generalizing called with
  | nil => simp [firstFailure, hk]
  | cons j js ih =>
    obtain ⟨coll, hj⟩ := hpre j (List.mem_cons_self _ _)
    simp only [List.cons_append, firstFailure, hj]
    have h := ih (called ++ [j]) (fun j' hj' => hpre j' (List.mem_cons_of_mem _ hj'))
    simpa using h

theorem firstFailure_none_iff {Coll : Kind → Type} {E : Type} (c : Constructors Coll E)
    (ks called : List Kind) :
    (firstFailure c ks called).1 = none ↔ ∀ k ∈ ks, ∃ coll, c.new k = .ok coll := by
  induction ks generalizing called with
  | nil => simp [firstFailure]
  | cons j js ih =>
    cases hj : c.new j with
    | error e => simp [firstFailure, hj]
    | ok coll => simp [firstFailure, hj, ih]

theorem exists_first_failure {Coll : Kind → Type} {E : Type} (c : Constructors Coll E)
    (ks : List Kind) (h : ∃ k ∈ ks, ∃ e, c.new k = .error e) :
    ∃ pre k post e, ks = pre ++ k :: post ∧ (∀ j ∈ pre, ∃ coll, c.new j = .ok coll) ∧
      c.new k = .error e := by
  induction ks with
  | nil => simp at h
  | cons a as ih =>
    cases ha : c.new a with
    | error e => exact ⟨[], a, as, e, rfl, by simp, ha⟩
    | ok coll =>
      obtain ⟨k, hk, e, he⟩ := h
      rcases List.mem_cons.mp hk with rfl | hk'
      · rw [ha] at he
        cases he
      · obtain ⟨pre, k', post, e', h1, h2, h3⟩ := ih ⟨k, hk', e, he⟩
        refine ⟨a :: pre, k', post, e', by rw [h1]; rfl, ?_, h3⟩
        intro j hj
        rcases List.mem_cons.mp hj with rfl | hj'
        · exact ⟨coll, ha⟩
        · exact h2 j hj'

theorem mem_callSequence (k : Kind) : k ∈ callSequence := by
  cases k <;> decide

theorem NewKongState_calls {Coll : Kind → Type} {E : Type} (c : Constructors Coll E) :
    ∃ n : Fin 11, (NewKongState c).calls = callSequence.take (n.val + 1) := by
  obtain ⟨a1, a2, a3, a4, a5, a6, a7, a8, a9, a10, a11⟩ := c
  simp only [NewKongState]
  cases a1 <;> [exact ⟨0, rfl⟩; skip]
  cases a2 <;> [exact ⟨1, rfl⟩; skip]
  cases a3 <;> [exact ⟨2, rfl⟩; skip]
  cases a4 <;> [exact ⟨3, rfl⟩; skip]
  cases a5 <;> [exact ⟨4, rfl⟩; skip]
  cases a6 <;> [exact ⟨5, rfl⟩; skip]
  cases a7 <;> [exact ⟨6, rfl⟩; skip]
  cases a8 <;> [exact ⟨7, rfl⟩; skip]
  cases a9 <;> [exact ⟨8, rfl⟩; skip]
  cases a10 <;> [exact ⟨9, rfl⟩; skip]
  cases a11 <;> exact ⟨10, rfl⟩

theorem NewKongState_calls_of_ok {Coll : Kind → Type} {E : Type} (c : Constructors Coll E)
    (h : ∀ k, ∃ coll, c.new k = .ok coll) : (NewKongState c).calls = callSequence := by
  obtain ⟨_, h1⟩ := h .Services
  obtain ⟨_, h2⟩ := h .Routes
  obtain ⟨_, h3⟩ := h .Upstreams
  obtain ⟨_, h4⟩ := h .Targets
  obtain ⟨_, h5⟩ := h .Certificates
  obtain ⟨_, h6⟩ := h .Plugins
  obtain ⟨_, h7⟩ := h .Consumers
  obtain ⟨_, h8⟩ := h .KeyAuths
  obtain ⟨_, h9⟩ := h .HMACAuths
  obtain ⟨_, h10⟩ := h .JWTAuths
  obtain ⟨_, h11⟩ := h .BasicAuths
  simp only [Constructors.new] at h1 h2 h3 h4 h5 h6 h7 h8 h9 h10 h11
  simp only [NewKongState, h1, h2, h3, h4, h5, h6, h7, h8, h9, h10, h11, callSequence]

theorem take_not_consumers_plugins (n : Fin 11) :
    ¬ calledBefore (callSequence.take (n.val + 1)) .Consumers .Plugins := by
  revert n; decide

theorem take_order (n : Fin 11) (a b : Kind) (hd : dependsOn a b = true)
    (hne : ¬ (a = .Plugins ∧ b = .Consumers)) (ha : a ∈ callSequence.take (n.val + 1)) :
    calledBefore (callSequence.take (n.val + 1)) b a := by
  revert n
  cases a <;> cases b <;> simp [dependsOn] at hd hne ⊢ <;> decide

theorem take_plugins_consumers (n : Fin 11) (ha : Kind.Consumers ∈ callSequence.take (n.val + 1)) :
    calledBefore (callSequence.take (n.val + 1)) .Plugins .Consumers := by
  revert n; decide

/-! ## errorArray.Error -/

/-- C2: for a non-empty `Errors` slice of `n` elements, `Error()` is the decimal rendering
of `n`, then `" errors occured:\n"`, then one line `"\t" ++ text ++ "\n"` per element, in
slice order, one line for each element. -/
theorem errorArray_Error_message (e : errorArray) (h : e.Errors ≠ []) :
    e.Error = Nat.repr e.Errors.length ++ " errors occured:\n" ++
      String.join (e.Errors.map fun err => "\t" ++ verbV err ++ "\n") := by
  have hlen : e.Errors.length ≠ 0 := fun h0 => h (List.length_eq_zero.mp h0)
  unfold errorArray.Error
  rw [if_neg hlen, foldl_lines (fun err => "\t" ++ verbV err ++ "\n"), Itoa_natCast]

theorem errorArray_Error_message_witness :
    (errorArray.mk [some "first", some "second"]).Errors ≠ [] ∧
    (errorArray.mk [some "first", some "second"]).Error =
      "2 errors occured:\n\tfirst\n\tsecond\n" :=
  ⟨by decide, (errorArray_Error_message ⟨[some "first", some "second"]⟩ (by decide)).trans
    (by decide)⟩

/-! ## NewKongState -/

/-- C3: when a constructor of the call sequence returns an error and all constructors before
it succeed, `NewKongState` returns a nil state with exactly that error and has called the
constructors up to and including the failing one, none after it; the state is non-nil exactly
when all eleven constructors succeed; and as soon as any constructor fails there is such a
first failing constructor, so the state is nil and the error is its error. -/
theorem NewKongState_first_error {Coll : Kind → Type} {E : Type}
    (c : Constructors Coll E) :
    (∀ (pre post : List Kind) (k : Kind) (e : E), callSequence = pre ++ k :: post →
      (∀ j ∈ pre, ∃ coll, c.new j = .ok coll) → c.new k = .error e →
      NewKongState c = ⟨none, some e, pre ++ [k]⟩) ∧
    ((NewKongState c).state ≠ none ↔ ∀ k, ∃ coll, c.new k = .ok coll) ∧
    ((∃ k e, c.new k = .error e) →
      ∃ pre k post e, callSequence = pre ++ k :: post ∧
        (∀ j ∈ pre, ∃ coll, c.new j = .ok coll) ∧ c.new k = .error e ∧
        NewKongState c = ⟨none, some e, pre ++ [k]⟩) := by
  have hff := NewKongState_firstFailure c
  have hst := NewKongState_state_iff c
  have hall : (NewKongState c).err = none ↔ ∀ k, ∃ coll, c.new k = .ok coll := by
    have h1 : (NewKongState c).err = (firstFailure c callSequence []).1 := by rw [← hff]
    rw [h1, firstFailure_none_iff]
    exact ⟨fun h k => h k (mem_callSequence k), fun h k _ => h k⟩
  have hfirst : ∀ (pre post : List Kind) (k : Kind) (e : E), callSequence = pre ++ k :: post →
      (∀ j ∈ pre, ∃ coll, c.new j = .ok coll) → c.new k = .error e →
      NewKongState c = ⟨none, some e, pre ++ [k]⟩ := by
    intro pre post k e hsplit hpre hk
    have h2 := firstFailure_split c pre post k e [] hpre hk
    rw [← hsplit, ← hff] at h2
    have herr : (NewKongState c).err = some e := congrArg Prod.fst h2
    have hcalls : (NewKongState c).calls = pre ++ [k] := by
      simpa using congrArg Prod.snd h2
    have hstate : (NewKongState c).state = none := hst.mpr (by simp [herr])
    cases hr : NewKongState c with
    | mk st er ca =>
      rw [hr] at herr hcalls hstate
      simp only at herr hcalls hstate
      rw [herr, hcalls, hstate]
  refine ⟨hfirst, ?_, ?_⟩
  · rw [← hall, Ne, hst]
    simp
  · rintro ⟨k, e, hk⟩
    obtain ⟨pre, k', post, e', h1, h2, h3⟩ :=
      exists_first_failure c callSequence ⟨k, mem_callSequence k, e, hk⟩
    exact ⟨pre, k', post, e', h1, h2, h3, hfirst pre post k' e' h1 h2 h3⟩

theorem NewKongState_first_error_witness :
    NewKongState failingConstructors = ⟨none, some "boom", [.Services, .Routes, .Upstreams]⟩ ∧
    (NewKongState failingConstructors).state = none :=
  ⟨(NewKongState_first_error failingConstructors).1 [.Services, .Routes]
      [.Targets, .Certificates, .Plugins, .Consumers, .KeyAuths, .HMACAuths, .JWTAuths,
        .BasicAuths] .Upstreams "boom" rfl
      (fun j hj => by
        rcases List.mem_cons.mp hj with rfl | hj
        · exact ⟨(), rfl⟩
        · rw [List.mem_singleton.mp hj]
          exact ⟨(), rfl⟩)
      rfl,
    by
      by_contra hne
      obtain ⟨coll, hc⟩ := (NewKongState_first_error failingConstructors).2.1.mp hne .Upstreams
      cases hc⟩

/-- C4: when every constructor succeeds, `NewKongState` returns a nil error and a state whose
field of each kind is exactly the collection returned by the constructor of that kind, so no
field is nil. -/
theorem NewKongState_fields {Coll : Kind → Type} {E : Type} (c : Constructors Coll E)
    (coll : (k : Kind) → Coll k) (h : ∀ k, c.new k = .ok (coll k)) :
    NewKongState c =
      ⟨some
        { Services := some (coll .Services)
          Routes := some (coll .Routes)
          Upstreams := some (coll .Upstreams)
          Targets := some (coll .Targets)
          Certificates := some (coll .Certificates)
          Plugins := some (coll .Plugins)
          Consumers := some (coll .Consumers)
          KeyAuths := some (coll .KeyAuths)
          HMACAuths := some (coll .HMACAuths)
          JWTAuths := some (coll .JWTAuths)
          BasicAuths := some (coll .BasicAuths) },
        none, callSequence⟩ ∧
    ∃ s, (NewKongState c).state = some s ∧ (NewKongState c).err = none ∧
      ∀ k, s.field k = some (coll k) ∧ s.field k ≠ none := by
  have h1 := h .Services
  have h2 := h .Routes
  have h3 := h .Upstreams
  have h4 := h .Targets
  have h5 := h .Certificates
  have h6 := h .Plugins
  have h7 := h .Consumers
  have h8 := h .KeyAuths
  have h9 := h .HMACAuths
  have h10 := h .JWTAuths
  have h11 := h .BasicAuths
  simp only [Constructors.new] at h1 h2 h3 h4 h5 h6 h7 h8 h9 h10 h11
  have heq : NewKongState c = ⟨some ⟨some (coll .Services), some (coll .Routes),
      some (coll .Upstreams), some (coll .Targets), some (coll .Certificates),
      some (coll .Plugins), some (coll .Consumers), some (coll .KeyAuths),
      some (coll .HMACAuths), some (coll .JWTAuths), some (coll .BasicAuths)⟩,
      none, callSequence⟩ := by
    simp only [NewKongState, h1, h2, h3, h4, h5, h6, h7, h8, h9, h10, h11, callSequence]
  refine ⟨heq, ?_⟩
  rw [heq]
  refine ⟨_, rfl, rfl, ?_⟩
  intro k
  cases k <;> simp [KongState.field]

theorem NewKongState_fields_witness :
    (∀ k, unitConstructors.new k = .ok ()) ∧
    ∃ s, (NewKongState unitConstructors).state = some s ∧
      (NewKongState unitConstructors).err = none ∧
      ∀ k, s.field k = some () ∧ s.field k ≠ none :=
  ⟨fun k => by cases k <;> rfl,
    (NewKongState_fields unitConstructors (fun _ => ()) (fun k => by cases k <;> rfl)).2⟩

/-- C8, as the code has it: the constructor of Plugins is called before the constructor of
Consumers, although Plugin depends on Consumer. -/
theorem NewKongState_order_counterexample :
    (NewKongState unitConstructors).calls =
      [.Services, .Routes, .Upstreams, .Targets, .Certificates, .Plugins, .Consumers,
        .KeyAuths, .HMACAuths, .JWTAuths, .BasicAuths] ∧
    dependsOn .Plugins .Consumers = true ∧
    ¬ calledBefore (NewKongState unitConstructors).calls .Consumers .Plugins ∧
    calledBefore (NewKongState unitConstructors).calls .Plugins .Consumers := by
  decide

/-- C8, amended: the constructors are called in the fixed order Services, Routes, Upstreams,
Targets, Certificates, Plugins, Consumers, KeyAuths, HMACAuths, JWTAuths, BasicAuths: the
calls of every run are an initial segment of that list, and the whole list when all
constructors succeed. In every run, for every dependency of kind `a` on kind `b` other than
that of Plugins on Consumers, when the constructor of `a` is called the constructor of `b`
has been called before it; and when the constructor of Consumers is called, that of Plugins
has been called before it, not after it. -/
theorem NewKongState_order {Coll : Kind → Type} {E : Type} (c : Constructors Coll E) :
    (∃ n : Fin 11, (NewKongState c).calls =
      List.take (n.val + 1)
        [.Services, .Routes, .Upstreams, .Targets, .Certificates, .Plugins, .Consumers,
          .KeyAuths, .HMACAuths, .JWTAuths, .BasicAuths]) ∧
    ((∀ k, ∃ coll, c.new k = .ok coll) →
      (NewKongState c).calls =
        [.Services, .Routes, .Upstreams, .Targets, .Certificates, .Plugins, .Consumers,
          .KeyAuths, .HMACAuths, .JWTAuths, .BasicAuths]) ∧
    (∀ a b : Kind, dependsOn a b = true → ¬ (a = .Plugins ∧ b = .Consumers) →
      a ∈ (NewKongState c).calls → calledBefore (NewKongState c).calls b a) ∧
    (Kind.Consumers ∈ (NewKongState c).calls →
      calledBefore (NewKongState c).calls .Plugins .Consumers ∧
      ¬ calledBefore (NewKongState c).calls .Consumers .Plugins) := by
  obtain ⟨n, hn⟩ := NewKongState_calls c
  refine ⟨⟨n, hn⟩, NewKongState_calls_of_ok c, ?_, ?_⟩
  · intro a b hd hne ha
    rw [hn] at ha ⊢
    exact take_order n a b hd hne ha
  · intro hc
    rw [hn] at hc ⊢
    exact ⟨take_plugins_consumers n hc, take_not_consumers_plugins n⟩

theorem NewKongState_order_witness :
    (NewKongState unitConstructors).calls =
      [.Services, .Routes, .Upstreams, .Targets, .Certificates, .Plugins, .Consumers,
        .KeyAuths, .HMACAuths, .JWTAuths, .BasicAuths] ∧
    calledBefore (NewKongState unitConstructors).calls .Services .Routes ∧
    calledBefore (NewKongState unitConstructors).calls .Plugins .Consumers :=
  ⟨(NewKongState_order unitConstructors).2.1 (fun k => ⟨(), by cases k <;> rfl⟩),
    (NewKongState_order unitConstructors).2.2.1 .Routes .Services (by decide) (by decide)
      (by decide),
    ((NewKongState_order unitConstructors).2.2.2 (by decide)).1⟩

/-! ## GetKongClient -/

theorem finish_transport {K E Pool T : Type} (kong : Kong K E) (dt : Transport Pool T)
    (opt : kongClientConfig) (cfg : TLSConfig Pool) :
    (GetKongClient.finish kong dt opt cfg).DefaultTransport =
      { dt with TLSClientConfig := some cfg } := by
  unfold GetKongClient.finish
  dsimp only
  split <;> rfl

theorem finish_err {K E Pool T : Type} (kong : Kong K E) (dt : Transport Pool T)
    (opt : kongClientConfig) (cfg : TLSConfig Pool) (e : Err E)
    (h : (GetKongClient.finish kong dt opt cfg).err = some e) :
    ∃ cause, e = .Wrap cause "creating client for Kong's Admin API" := by
  unfold GetKongClient.finish at h
  dsimp only at h
  split at h
  · rename_i err _
    exact ⟨err, by simpa using h.symm⟩
  · simp at h

theorem wrap_text_ne (rest : String) :
    "creating client for Kong's Admin API" ++ ": " ++ rest ≠ "failed to load TLSCACert" := by
  intro h
  have h2 := congrArg (fun s : String => s.data.head?) h
  simp [String.data_append] at h2

/-- C5: whenever `GetKongClient` installs a TLS configuration on the default transport, that
is unless `TLSCACert` is non-empty and holds no certificate, the installed configuration has
`InsecureSkipVerify` true exactly when `TLSSkipVerify` is true, `ServerName` equal to
`TLSServerName`, and `RootCAs` set, to the pool built from `TLSCACert`, exactly when
`TLSCACert` is non-empty; in the remaining case the default transport is left as it was. -/
theorem GetKongClient_tls_config {K E Pool T : Type} (x509 : X509 Pool) (kong : Kong K E)
    (dt : Transport Pool T) (opt : kongClientConfig) :
    (¬ (opt.TLSCACert ≠ "" ∧
        (x509.AppendCertsFromPEM x509.NewCertPool opt.TLSCACert).2 = false) →
      ∃ cfg, (GetKongClient x509 kong dt opt).DefaultTransport =
          { dt with TLSClientConfig := some cfg } ∧
        (cfg.InsecureSkipVerify = true ↔ opt.TLSSkipVerify = true) ∧
        cfg.ServerName = opt.TLSServerName ∧
        (cfg.RootCAs ≠ none ↔ opt.TLSCACert ≠ "") ∧
        (opt.TLSCACert ≠ "" → cfg.RootCAs =
          some (x509.AppendCertsFromPEM x509.NewCertPool opt.TLSCACert).1)) ∧
    ((opt.TLSCACert ≠ "" ∧
        (x509.AppendCertsFromPEM x509.NewCertPool opt.TLSCACert).2 = false) →
      (GetKongClient x509 kong dt opt).DefaultTransport = dt) := by
  obtain ⟨addr, hdrs, skip, sn, ca, dbg⟩ := opt
  dsimp only
  constructor
  · intro h
    by_cases hca : ca = ""
    · subst hca
      refine ⟨_, by simp only [GetKongClient]; simp [finish_transport]; rfl, ?_⟩
      by_cases hs : skip = true <;> by_cases hn : sn = "" <;> simp [hs, hn]
    · cases hp : x509.AppendCertsFromPEM x509.NewCertPool ca with
      | mk pool ok =>
        have hok : ok = true := by
          cases ok with
          | true => rfl
          | false => exact absurd ⟨hca, by rw [hp]⟩ h
        subst hok
        refine ⟨_, by simp only [GetKongClient]; simp [hca, hp, finish_transport]; rfl, ?_⟩
        by_cases hs : skip = true <;> by_cases hn : sn = "" <;> simp [hs, hn, hca]
  · rintro ⟨hca, hok⟩
    cases hp : x509.AppendCertsFromPEM x509.NewCertPool ca with
    | mk pool ok =>
      rw [hp] at hok
      simp only at hok
      subst hok
      simp [GetKongClient, hca, hp]

theorem GetKongClient_tls_config_witness :
    ∃ cfg, (GetKongClient demoX509 demoKong demoTransport demoConfig).DefaultTransport =
        { demoTransport with TLSClientConfig := some cfg } ∧
      (cfg.InsecureSkipVerify = true ↔ demoConfig.TLSSkipVerify = true) ∧
      cfg.ServerName = demoConfig.TLSServerName ∧
      (cfg.RootCAs ≠ none ↔ demoConfig.TLSCACert ≠ "") ∧
      (demoConfig.TLSCACert ≠ "" → cfg.RootCAs =
        some (demoX509.AppendCertsFromPEM demoX509.NewCertPool demoConfig.TLSCACert).1) :=
  (GetKongClient_tls_config demoX509 demoKong demoTransport demoConfig).1 (by decide)

/-- C6: when `TLSCACert` is non-empty and no certificate can be parsed from it,
`GetKongClient` returns a nil client and the error `failed to load TLSCACert`, whatever the
other options are; when `TLSCACert` is empty, the error returned, if any, is not that error
and does not have that text. -/
theorem GetKongClient_rejects_unusable_CA {K E Pool T : Type} (x509 : X509 Pool)
    (kong : Kong K E) (dt : Transport Pool T) (opt : kongClientConfig) :
    (opt.TLSCACert ≠ "" →
      (x509.AppendCertsFromPEM x509.NewCertPool opt.TLSCACert).2 = false →
      (GetKongClient x509 kong dt opt).client = none ∧
      (GetKongClient x509 kong dt opt).err = some (.New "failed to load TLSCACert")) ∧
    (opt.TLSCACert = "" →
      (GetKongClient x509 kong dt opt).err ≠ some (.New "failed to load TLSCACert") ∧
      ∀ (causeText : E → String) (e : Err E), (GetKongClient x509 kong dt opt).err = some e →
        e.Error causeText ≠ "failed to load TLSCACert") := by
  obtain ⟨addr, hdrs, skip, sn, ca, dbg⟩ := opt
  dsimp only
  constructor
  · intro hca hok
    cases hp : x509.AppendCertsFromPEM x509.NewCertPool ca with
    | mk pool ok =>
      rw [hp] at hok
      simp only at hok
      subst hok
      simp [GetKongClient, hca, hp]
  · intro hca
    subst hca
    have hfin : ∀ e : Err E, (GetKongClient x509 kong dt ⟨addr, hdrs, skip, sn, "", dbg⟩).err
        = some e → ∃ cause, e = .Wrap cause "creating client for Kong's Admin API" := by
      intro e he
      simp only [GetKongClient] at he
      simp only [ne_eq, not_true_eq_false, if_false] at he
      exact finish_err _ _ _ _ e he
    constructor
    · intro h
      obtain ⟨cause, hc⟩ := hfin _ h
      cases hc
    · intro causeText e he
      obtain ⟨cause, rfl⟩ := hfin _ he
      exact wrap_text_ne _

theorem GetKongClient_rejects_unusable_CA_witness :
    (GetKongClient demoX509 demoKong demoTransport demoBadCAConfig).client = none ∧
    (GetKongClient demoX509 demoKong demoTransport demoBadCAConfig).err =
      some (.New "failed to load TLSCACert") :=
  (GetKongClient_rejects_unusable_CA demoX509 demoKong demoTransport demoBadCAConfig).1
    (by decide) (by decide)

/-! ## HeaderRoundTripper.RoundTrip -/

theorem exists_last_named (hs : List String) (k : String)
    (h : ∃ e ∈ hs, ∃ v, SplitN e ':' 2 = [k, v]) :
    ∃ pre e v post, hs = pre ++ e :: post ∧ SplitN e ':' 2 = [k, v] ∧
      ∀ e' ∈ post, ∀ v', SplitN e' ':' 2 ≠ [k, v'] := by
  induction hs with
  | nil => simp at h
  | cons a as ih =>
    by_cases hlater : ∃ e ∈ as, ∃ v, SplitN e ':' 2 = [k, v]
    · obtain ⟨pre, e, v, post, h1, h2, h3⟩ := ih hlater
      exact ⟨a :: pre, e, v, post, by rw [h1]; rfl, h2, h3⟩
    · obtain ⟨e, he, v, hv⟩ := h
      rcases List.mem_cons.mp he with rfl | he'
      · refine ⟨[], e, v, as, rfl, hv, ?_⟩
        intro e' he' v' hv'
        exact hlater ⟨e', he', v', hv'⟩
      · exact absurd ⟨e, he', v, hv⟩ hlater

theorem colon_eq : (":" : String) = String.singleton ':' := rfl

/-- C1: for every configured entry that splits into `name` and `value` there is a value `v`,
the value of a configured entry with that name, such that for every incoming request and heap
`RoundTrip` is a call of the wrapped transport on a request that carries under `name` exactly
the one value `v`: whatever the incoming request had under `name`, none of it is taken
over. -/
theorem RoundTrip_overrides {RT B : Type} (t : HeaderRoundTripper RT)
    (e name value : String) (he : e ∈ t.headers) (hsplit : SplitN e ':' 2 = [name, value]) :
    ∃ v, (∃ e' ∈ t.headers, SplitN e' ':' 2 = [name, v]) ∧
      ∀ (req : Request B) (heap : Heap), ∃ (newRequest : Request B) (hp : Heap),
        (∀ (ρ : Type) (roundTrip : RT → Request B → Heap → ρ),
          t.RoundTrip roundTrip req heap = roundTrip t.rt newRequest hp) ∧
        AList.lookup name (hp.load newRequest.Header) = some [v] := by
  obtain ⟨pre, e', v, post, h1, h2, h3⟩ := exists_last_named t.headers name ⟨e, he, value, hsplit⟩
  refine ⟨v, ⟨e', by rw [h1]; simp, h2⟩, ?_⟩
  intro req heap
  refine ⟨(t.newRequest req heap).1, (t.newRequest req heap).2,
    fun _ _ => rfl, ?_⟩
  have h := outgoing_eq t req heap
  unfold HeaderRoundTripper.outgoing at h
  rw [h, h1]
  exact lookup_foldl_setEntry_last pre post _ h2 h3

theorem RoundTrip_overrides_witness :
    "X:b" ∈ (⟨["X:b", "Y:c"], ()⟩ : HeaderRoundTripper Unit).headers ∧
    SplitN "X:b" ':' 2 = ["X", "b"] ∧
    AList.lookup "X" (demoHeap.load demoRequest.Header) = some ["a"] ∧
    ∃ v, (∃ e' ∈ (⟨["X:b", "Y:c"], ()⟩ : HeaderRoundTripper Unit).headers,
        SplitN e' ':' 2 = ["X", v]) ∧
      AList.lookup "X"
        ((HeaderRoundTripper.RoundTrip recordTransport ⟨["X:b", "Y:c"], ()⟩
            demoRequest demoHeap).2.load
          (HeaderRoundTripper.RoundTrip recordTransport ⟨["X:b", "Y:c"], ()⟩
            demoRequest demoHeap).1.Header) = some [v] :=
  ⟨by decide, by decide, by decide,
    (RoundTrip_overrides (⟨["X:b", "Y:c"], ()⟩ : HeaderRoundTripper Unit)
      "X:b" "X" "b" (by decide) (by decide)).imp fun _ h =>
      ⟨h.1, by
        obtain ⟨newRequest, hp, hcall, hlook⟩ := h.2 demoRequest demoHeap
        rw [hcall _ recordTransport]
        exact hlook⟩⟩

/-- C7, as the code has it: with the configured entries `X:a` and `X:b`, the entry `X:a` is
built from the name `X` and the value `a`, yet the request `RoundTrip` hands to the wrapped
transport has `X` set to `b`. -/
theorem RoundTrip_split_counterexample :
    "X" ++ ":" ++ "a" ∈ (⟨["X:a", "X:b"], ()⟩ : HeaderRoundTripper Unit).headers ∧
    ':' ∉ "X".data ∧
    AList.lookup "X"
      ((HeaderRoundTripper.RoundTrip recordTransport ⟨["X:a", "X:b"], ()⟩
          demoRequest demoHeap).2.load
        (HeaderRoundTripper.RoundTrip recordTransport ⟨["X:a", "X:b"], ()⟩
          demoRequest demoHeap).1.Header) = some ["b"] ∧
    AList.lookup "X"
      ((HeaderRoundTripper.RoundTrip recordTransport ⟨["X:a", "X:b"], ()⟩
          demoRequest demoHeap).2.load
        (HeaderRoundTripper.RoundTrip recordTransport ⟨["X:a", "X:b"], ()⟩
          demoRequest demoHeap).1.Header) ≠ some ["a"] :=
  ⟨by decide, by decide, by decide, by decide⟩

/-- C7, amended: an entry built as `name ++ ":" ++ value` with no colon in `name` is split
into exactly `name` and `value`, the loop step for it assigns the one-element list `[value]`
to the header `name`, and, provided no later configured entry has the same name, `RoundTrip`
is a call of the wrapped transport on a request that has `name` set to exactly `value`;
every entry containing a colon is built in this way. -/
theorem RoundTrip_split_first_colon {RT B : Type} (pre post : List String) (rt : RT)
    (req : Request B) (heap : Heap) (name value : String) (hname : ':' ∉ name.data) :
    SplitN (name ++ ":" ++ value) ':' 2 = [name, value] ∧
    (∀ (r : Ref) (hp : Heap),
      HeaderRoundTripper.setHeader r hp (name ++ ":" ++ value) = hp.store r name [value]) ∧
    ((∀ e' ∈ post, ∀ v', SplitN e' ':' 2 ≠ [name, v']) →
      ∃ (newRequest : Request B) (hp : Heap),
        (∀ (ρ : Type) (roundTrip : RT → Request B → Heap → ρ),
          HeaderRoundTripper.RoundTrip roundTrip ⟨pre ++ (name ++ ":" ++ value) :: post, rt⟩
            req heap = roundTrip rt newRequest hp) ∧
        AList.lookup name (hp.load newRequest.Header) = some [value] ∧
        AList.lookup name
          (HeaderRoundTripper.outgoing ⟨pre ++ (name ++ ":" ++ value) :: post, rt⟩ req heap)
          = some [value]) ∧
    (∀ e : String, ':' ∈ e.data →
      ∃ n v : String, ':' ∉ n.data ∧ e = n ++ ":" ++ v ∧ SplitN e ':' 2 = [n, v]) := by
  have hs : SplitN (name ++ ":" ++ value) ':' 2 = [name, value] := by
    rw [colon_eq]
    exact SplitN_two_of_append hname
  refine ⟨hs, ?_, ?_, ?_⟩
  · intro r hp
    simp [HeaderRoundTripper.setHeader, hs]
  · intro hpost
    have hout : AList.lookup name
        (HeaderRoundTripper.outgoing ⟨pre ++ (name ++ ":" ++ value) :: post, rt⟩ req heap)
        = some [value] := by
      rw [outgoing_eq]
      exact lookup_foldl_setEntry_last pre post _ hs hpost
    exact ⟨_, _, fun _ _ => rfl, hout, hout⟩
  · intro e he
    rcases SplitN_two_cases ':' e with ⟨hno, _⟩ | ⟨a, b, h1, h2, h3⟩
    · exact absurd he hno
    · exact ⟨a, b, h1, by rw [colon_eq]; exact h2, h3⟩

theorem RoundTrip_split_first_colon_witness :
    ':' ∉ "Host".data ∧
    SplitN ("Host" ++ ":" ++ "a:b ") ':' 2 = ["Host", "a:b "] ∧
    AList.lookup "Host"
      ((HeaderRoundTripper.RoundTrip recordTransport
          ⟨["X:a"] ++ ("Host" ++ ":" ++ "a:b ") :: ["nocolon"], ()⟩ demoRequest demoHeap).2.load
        (HeaderRoundTripper.RoundTrip recordTransport
          ⟨["X:a"] ++ ("Host" ++ ":" ++ "a:b ") :: ["nocolon"], ()⟩
          demoRequest demoHeap).1.Header) = some ["a:b "] :=
  ⟨by decide,
    (RoundTrip_split_first_colon ["X:a"] ["nocolon"] () demoRequest demoHeap "Host" "a:b "
      (by decide)).1,
    by
      obtain ⟨newRequest, hp, hcall, hlook, _⟩ :=
        (RoundTrip_split_first_colon ["X:a"] ["nocolon"] () demoRequest demoHeap "Host" "a:b "
          (by decide)).2.2.1 (fun e' he' v' h => by
            rw [List.mem_singleton.mp he',
              show SplitN "nocolon" ':' 2 = ["nocolon"] by decide] at h
            simp at h)
      rw [hcall _ recordTransport]
      exact hlook⟩

/-- C9: a header whose name is the name of no well-formed configured entry has the same
list of values in the outgoing request as in the incoming one; every name in the outgoing
header set is a name of the incoming request or of a well-formed configured entry; the heap
handed to the wrapped transport is the initial heap with the one new map added, so the
incoming request still has its header map, unchanged, also after the call when the wrapped
transport writes to no header map but that of the request it is given; the other fields of the
request are copied. -/
theorem RoundTrip_frame {RT B ρ : Type} (roundTrip : RT → Request B → Heap → ρ)
    (t : HeaderRoundTripper RT) (req : Request B) (heap : Heap) :
    (∀ k, (∀ e ∈ t.headers, ∀ v, SplitN e ':' 2 ≠ [k, v]) →
      AList.lookup k (t.outgoing req heap) = AList.lookup k (heap.load req.Header)) ∧
    (∀ k, k ∈ t.outgoing req heap →
      k ∈ heap.load req.Header ∨ ∃ e ∈ t.headers, ∃ v, SplitN e ':' 2 = [k, v]) ∧
    (t.newRequest req heap).2.maps = heap.maps ++ [t.outgoing req heap] ∧
    ((∀ r, req.Header = some r → r < heap.maps.length) →
      (t.newRequest req heap).2.load req.Header = heap.load req.Header) ∧
    (∀ effect : RT → Request B → Heap → Heap,
      (∀ x rq h r, rq.Header ≠ some r → (effect x rq h).load (some r) = h.load (some r)) →
      (∀ r, req.Header = some r → r < heap.maps.length) →
      (t.RoundTrip effect req heap).load req.Header = heap.load req.Header) ∧
    (t.newRequest req heap).1.rest = req.rest ∧
    t.RoundTrip roundTrip req heap =
      roundTrip t.rt (t.newRequest req heap).1 (t.newRequest req heap).2 := by
  have hkeep : (∀ r, req.Header = some r → r < heap.maps.length) →
      (t.newRequest req heap).2.load req.Header = heap.load req.Header := by
    intro hvalid
    rw [newRequest_eq]
    cases hr : req.Header with
    | none => rfl
    | some r =>
      have hlt := hvalid r hr
      simp only [Heap.load, List.getD_eq_getElem?_getD]
      rw [List.getElem?_append_left hlt]
  refine ⟨?_, ?_, ?_, hkeep, ?_, ?_, rfl⟩
  · intro k hk
    rw [outgoing_eq, lookup_foldl_setEntry_of_ne _ _ hk, lookup_copy]
  · intro k hk
    rw [outgoing_eq] at hk
    rcases mem_foldl_setEntry _ _ hk with h | h
    · exact Or.inl (mem_copy.mp h)
    · exact Or.inr h
  · rw [outgoing_eq, newRequest_eq]
  · intro effect hframe hvalid
    rw [← hkeep hvalid]
    cases hr : req.Header with
    | none => rfl
    | some r =>
      have hlt := hvalid r hr
      have hne : (t.newRequest req heap).1.Header ≠ some r := by
        rw [newRequest_eq]
        intro h
        have h2 : heap.maps.length = r := Option.some.inj h
        rw [h2] at hlt
        exact Nat.lt_irrefl _ hlt
      exact hframe t.rt _ _ r hne
  · rw [newRequest_eq]

/-- C10: a configured entry without a colon is ignored: `RoundTrip` hands the wrapped
transport the same request in the same heap as if the entry were not in the list, a request
whose header map is the copy of the incoming one with the other entries applied, and returns
what the wrapped transport returns; and when the last configured entry of a given name has the
value `v`, `RoundTrip` is a call of the wrapped transport on a request that carries under that
name the one value `v`. -/
theorem RoundTrip_malformed_and_repeated {RT B ρ : Type}
    (roundTrip : RT → Request B → Heap → ρ) (pre post : List String) (e : String) (rt : RT)
    (req : Request B) (heap : Heap) :
    (':' ∉ e.data →
      HeaderRoundTripper.newRequest ⟨pre ++ e :: post, rt⟩ req heap =
        HeaderRoundTripper.newRequest ⟨pre ++ post, rt⟩ req heap ∧
      HeaderRoundTripper.RoundTrip roundTrip ⟨pre ++ e :: post, rt⟩ req heap =
        HeaderRoundTripper.RoundTrip roundTrip ⟨pre ++ post, rt⟩ req heap ∧
      ∃ (newRequest : Request B) (hp : Heap),
        (∀ (σ : Type) (transport : RT → Request B → Heap → σ),
          HeaderRoundTripper.RoundTrip transport ⟨pre ++ e :: post, rt⟩ req heap =
            transport rt newRequest hp ∧
          HeaderRoundTripper.RoundTrip transport ⟨pre ++ post, rt⟩ req heap =
            transport rt newRequest hp) ∧
        hp.load newRequest.Header =
          (pre ++ post).foldl Header.setEntry
            (Header.copyInto (heap.load req.Header).entries ∅)) ∧
    (∀ k v, SplitN e ':' 2 = [k, v] → (∀ e' ∈ post, ∀ v', SplitN e' ':' 2 ≠ [k, v']) →
      ∃ (newRequest : Request B) (hp : Heap),
        (∀ (σ : Type) (transport : RT → Request B → Heap → σ),
          HeaderRoundTripper.RoundTrip transport ⟨pre ++ e :: post, rt⟩ req heap =
            transport rt newRequest hp) ∧
        AList.lookup k (hp.load newRequest.Header) = some [v] ∧
        AList.lookup k (HeaderRoundTripper.outgoing ⟨pre ++ e :: post, rt⟩ req heap) =
          some [v]) := by
  constructor
  · intro he
    have h : HeaderRoundTripper.newRequest ⟨pre ++ e :: post, rt⟩ req heap =
        HeaderRoundTripper.newRequest ⟨pre ++ post, rt⟩ req heap := by
      rw [newRequest_eq, newRequest_eq]
      simp only [foldl_setEntry_skip pre post _ he]
    refine ⟨h, ?_, ?_⟩
    · simp only [HeaderRoundTripper.RoundTrip, h]
    · refine ⟨(HeaderRoundTripper.newRequest ⟨pre ++ post, rt⟩ req heap).1,
        (HeaderRoundTripper.newRequest ⟨pre ++ post, rt⟩ req heap).2, ?_, ?_⟩
      · intro σ transport
        constructor
        · show transport rt
              (HeaderRoundTripper.newRequest ⟨pre ++ e :: post, rt⟩ req heap).1
              (HeaderRoundTripper.newRequest ⟨pre ++ e :: post, rt⟩ req heap).2 = _
          rw [h]
        · rfl
      · have ho := outgoing_eq (⟨pre ++ post, rt⟩ : HeaderRoundTripper RT) req heap
        unfold HeaderRoundTripper.outgoing at ho
        exact ho
  · intro k v hk hpost
    have hout : AList.lookup k
        (HeaderRoundTripper.outgoing ⟨pre ++ e :: post, rt⟩ req heap) = some [v] := by
      rw [outgoing_eq]
      exact lookup_foldl_setEntry_last pre post _ hk hpost
    exact ⟨_, _, fun _ _ => rfl, hout, hout⟩

theorem RoundTrip_frame_witness :
    AList.lookup "X"
      (HeaderRoundTripper.outgoing (⟨["Y:b", "bad"], ()⟩ : HeaderRoundTripper Unit)
        demoRequest demoHeap) = some ["a"] ∧
    (HeaderRoundTripper.newRequest (⟨["Y:b", "bad"], ()⟩ : HeaderRoundTripper Unit)
      demoRequest demoHeap).2.load demoRequest.Header = demoHeap.load demoRequest.Header :=
  ⟨((RoundTrip_frame (fun _ (r : Request Unit) h => (r, h))
      (⟨["Y:b", "bad"], ()⟩ : HeaderRoundTripper Unit) demoRequest demoHeap).1 "X"
      (fun e he v h => by
        rcases List.mem_cons.mp he with rfl | he
        · rw [show SplitN "Y:b" ':' 2 = ["Y", "b"] by decide] at h
          simp at h
        · rw [List.mem_singleton.mp he, show SplitN "bad" ':' 2 = ["bad"] by decide] at h
          simp at h)).trans (by decide),
    (RoundTrip_frame (fun _ (r : Request Unit) h => (r, h))
      (⟨["Y:b", "bad"], ()⟩ : HeaderRoundTripper Unit) demoRequest demoHeap).2.2.2.1
      (fun r hr => by
        have : r = 0 := by simpa [demoRequest] using hr.symm
        subst this
        decide)⟩

theorem RoundTrip_malformed_and_repeated_witness :
    HeaderRoundTripper.RoundTrip recordTransport ⟨["X:1"] ++ "bad" :: ["X:2"], ()⟩
        demoRequest demoHeap =
      HeaderRoundTripper.RoundTrip recordTransport ⟨["X:1"] ++ ["X:2"], ()⟩
        demoRequest demoHeap ∧
    AList.lookup "X"
      ((HeaderRoundTripper.RoundTrip recordTransport ⟨["X:1"] ++ "X:2" :: ["bad"], ()⟩
          demoRequest demoHeap).2.load
        (HeaderRoundTripper.RoundTrip recordTransport ⟨["X:1"] ++ "X:2" :: ["bad"], ()⟩
          demoRequest demoHeap).1.Header) = some ["2"] :=
  ⟨((RoundTrip_malformed_and_repeated recordTransport ["X:1"] ["X:2"]
      "bad" () demoRequest demoHeap).1 (by decide)).2.1,
    by
      obtain ⟨newRequest, hp, hcall, hlook, _⟩ :=
        (RoundTrip_malformed_and_repeated recordTransport ["X:1"] ["bad"]
          "X:2" () demoRequest demoHeap).2 "X" "2" (by decide)
          (fun e he v h => by
            rw [List.mem_singleton.mp he, show SplitN "bad" ':' 2 = ["bad"] by decide] at h
            simp at h)
      rw [hcall _ recordTransport]
      exact hlook⟩

end Deck
